import Mathlib

/-!
Verification development for the in-memory mock connection and scripted
server harness of the go-imap repository (package `mock` plus the
`imap.MockServer` shim).

The Go sources are shallowly embedded as Lean definitions:

* `netTimerSet` / `netTimerExpired` embed `netTimer.Set` and
  `netTimer.Timeout` (conn.go).  Go `time.Time` is modelled as `Int`
  instants, a zero (unset) `time.Time` as `none`, and `time.Duration`
  as `Int`.
* `HalfConn.read` / `HalfConn.write` embed `halfConn.read` and
  `halfConn.write`.  The shared mutex and condition variable are modelled
  by giving each call single-threaded semantics: a call that would park on
  `c.Wait()` with nobody left to wake it is represented by the result
  `none` (the call blocks).  `halfConn.write` loops; each productive
  iteration appends at least one byte, so the loop is embedded with a
  fuel of `b.length + 1`, which is exhausted only on states violating the
  buffer invariant.  Calls to `Broadcast()` are recorded in the ghost
  counter `bcasts`.  Time is frozen at the instant `now` for the duration
  of one call.
* `Chan` with `Chan.ReadOp`, `Chan.WriteOp`, `Chan.CloseFn`,
  `Chan.ClearOp`, `Chan.closeOp` embed `Conn` and its methods; a `Side`
  selects one of the two paired endpoints created by `NewConn`.
* `runScript` / `scriptChanEvents` embed `T.script` (mock.go,
  part_000 generation): the interpreter runs the actions in order, the
  first panic aborts the run, and the deferred
  `func() { ch <- recover(); close(ch) }` turns the result into the
  event sequence sent on the outcome channel.  External I/O results
  (write/flush/read errors, bytes read, ScriptFunc errors) are supplied
  by an environment `ActionEnv`, one per action index.
* `GoChan` gives operational semantics to an unbuffered-or-buffered Go
  channel so that "exactly one send, then close, never blocked, never a
  double send" is a theorem about running the produced events, not a
  definition.
* `TJoin` embeds `T.Join`; receiving from a `nil` channel (no script ever
  started) blocks forever, which is the result `none`.
* `Transport` / `mockServerEnableTLS` embed `mockServer.EnableTLS`
  (server.go); `Encrypted` is the field the guard consults.
-/

namespace GoImapMock

/-- Errors produced by the mock connection: `io.EOF` or a `netTimeout`
value carrying its message string. -/
inductive NetErr where
  | eofErr : NetErr
  | timeoutErr (msg : String) : NetErr
deriving DecidableEq

/-- Result of the method `netTimeout.Timeout()`: always `true`. -/
def netTimeoutTimeoutMethod : Bool := true

/-- Result of the method `netTimeout.Temporary()`: always `false`. -/
def netTimeoutTemporaryMethod : Bool := false

/-- Whether an error value is marked as a timeout-class condition, i.e.
whether it implements `net.Error` with `Timeout()` reporting true.
`io.EOF` carries no such marking. -/
def NetErr.timeoutClass : NetErr → Bool
  | .eofErr => false
  | .timeoutErr _ => netTimeoutTimeoutMethod

/-- Go `time.Time` instants, modelled as integers; `Option Instant` is a
possibly-zero (unset) `time.Time`. -/
abbrev Instant := Int

/-- Embeds `netTimer.Set`: computes the effective expiry from the absolute
deadline and the relative timeout, whichever is earlier; `none` means no
expiry is configured. -/
def netTimerSet (now : Instant) (deadline : Option Instant) (timeout : Int) :
    Option Instant :=
  if 0 < timeout then
    let e := now + timeout
    match deadline with
    | some dl => if dl < e then some dl else some e
    | none => some e
  else
    deadline

/-- Embeds `netTimer.Timeout`: true iff an expiry is set and is not after
`now`. -/
def netTimerExpired : Option Instant → Instant → Bool
  | some e, now => decide (e ≤ now)
  | none, _ => false

/-- Embeds `halfConn`.  `buf = none` models a released (`nil`) Go slice;
`bufCap` records `cap(buf)` as allocated by `newHalfConn` (after the
buffer is released the capacity is never consulted again, because `eof`
is set whenever `buf` is released).  `bcasts` is a ghost counter of
`Broadcast()` calls on the embedded condition variable. -/
structure HalfConn where
  addr : String
  buf : Option (List Nat)
  bufCap : Nat
  off : Nat
  eof : Bool
  bcasts : Nat
deriving DecidableEq

/-- Embeds `newHalfConn`. -/
def newHalfConn (addr : String) (bufSize : Nat) : HalfConn :=
  { addr := addr, buf := some [], bufCap := bufSize, off := 0,
    eof := false, bcasts := 0 }

/-- Embeds `halfConn.read` for one call under single-threaded semantics:
the switch is evaluated; if no case applies the call parks on `c.Wait()`
with nobody to wake it, represented by `none`.  On success the returned
bytes are `buf[off : off+n]` with `n = min blen (len buf - off)`. -/
def HalfConn.read (c : HalfConn) (blen : Nat) (d : Option Instant) (t : Int)
    (now : Instant) (addr : String) :
    Option (HalfConn × List Nat × Option NetErr) :=
  let alarm := netTimerSet now d t
  match c.buf with
  | none => some (c, [], some .eofErr)
  | some data =>
    if netTimerExpired alarm now then
      some (c, [], some (.timeoutErr ("mock(" ++ addr ++ "): read timeout")))
    else if blen = 0 then
      some (c, [], none)
    else if 0 < data.length then
      let bytes := (data.drop c.off).take blen
      let off' := c.off + bytes.length
      if off' = data.length then
        some ({ c with buf := some [], off := 0, bcasts := c.bcasts + 1 },
          bytes, if c.eof then some .eofErr else none)
      else
        some ({ c with off := off', bcasts := c.bcasts + 1 }, bytes, none)
    else
      none

/-- One productive iteration of the `halfConn.write` loop body, taken
when there is free space: if the slice is full (`len(c.buf) ==
cap(c.buf)`), first compact by shifting `buf[off:]` to the front and
zeroing the offset; then copy `i = min(cap - len, len(b) - n)` bytes of
`b[n:]` into the free tail and wake blocked readers.  Returns the new
half and the new written count `n + i`. -/
def HalfConn.writeAppend (c : HalfConn) (b : List Nat) (n : Nat) :
    HalfConn × Nat :=
  let data := c.buf.getD []
  let data' := if data.length = c.bufCap then data.drop c.off else data
  let off' := if data.length = c.bufCap then 0 else c.off
  let i := min (c.bufCap - data'.length) (b.length - n)
  ({ c with buf := some (data' ++ (b.drop n).take i), off := off',
            bcasts := c.bcasts + 1 }, n + i)

/-- Embeds the loop of `halfConn.write`.  `n` is the count of bytes of `b`
already written.  Each productive iteration appends at least one byte, so
the fuel `b.length + 1` supplied by `HalfConn.write` never runs out on
states satisfying the buffer invariant; `none` is a call that blocks
forever on `c.Wait()`.  The branch condition `len(c.buf)-c.off <
cap(c.buf)` is computed in `Int` as in Go. -/
def HalfConn.writeLoop (c : HalfConn) (b : List Nat) (n : Nat)
    (expired : Bool) (addr : String) :
    Nat → Option (HalfConn × Nat × Option NetErr)
  | 0 => none
  | fuel + 1 =>
    if c.eof then some (c, n, some .eofErr)
    else if expired then
      some (c, n, some (.timeoutErr ("mock(" ++ addr ++ "): write timeout")))
    else if b.length = 0 then some (c, n, none)
    else if (((c.buf.getD []).length : Int) - (c.off : Int)) <
        (c.bufCap : Int) then
      if (c.writeAppend b n).2 = b.length then
        some ((c.writeAppend b n).1, (c.writeAppend b n).2, none)
      else
        HalfConn.writeLoop (c.writeAppend b n).1 b (c.writeAppend b n).2
          expired addr fuel
    else
      none

/-- Embeds `halfConn.write` for one call under single-threaded semantics,
with time frozen at `now`. -/
def HalfConn.write (c : HalfConn) (b : List Nat) (d : Option Instant)
    (t : Int) (now : Instant) (addr : String) :
    Option (HalfConn × Nat × Option NetErr) :=
  HalfConn.writeLoop c b 0 (netTimerExpired (netTimerSet now d t) now) addr
    (b.length + 1)

/-- Deadline/timeout fields of one `Conn` endpoint (`rd`, `wd`, `t`). -/
structure Endpoint where
  rd : Option Instant
  wd : Option Instant
  t : Int
deriving DecidableEq

/-- One of the two paired endpoints returned by `NewConn`. -/
inductive Side where
  | A : Side
  | B : Side
deriving DecidableEq

/-- The peer of a side. -/
def Side.other : Side → Side
  | .A => .B
  | .B => .A

/-- Embeds the shared state of a connected `Conn` pair: half `a` is read
by endpoint A and written by endpoint B, half `b` the other way around;
`ea`, `eb` are the per-endpoint deadline fields. -/
structure Chan where
  a : HalfConn
  b : HalfConn
  ea : Endpoint
  eb : Endpoint
deriving DecidableEq

/-- Embeds `NewConn`: nonpositive buffer sizes default to 4096. -/
def newConn (addrA addrB : String) (bufSize : Int) : Chan :=
  let sz := if bufSize ≤ 0 then 4096 else bufSize.toNat
  { a := newHalfConn addrA sz, b := newHalfConn addrB sz,
    ea := { rd := none, wd := none, t := 0 },
    eb := { rd := none, wd := none, t := 0 } }

/-- The half this endpoint reads from (`c.r`). -/
def Chan.rhalf (ch : Chan) : Side → HalfConn
  | .A => ch.a
  | .B => ch.b

/-- The half this endpoint writes to (`c.w`). -/
def Chan.whalf (ch : Chan) : Side → HalfConn
  | .A => ch.b
  | .B => ch.a

/-- Deadline fields of this endpoint. -/
def Chan.ep (ch : Chan) : Side → Endpoint
  | .A => ch.ea
  | .B => ch.eb

/-- Replace the half this endpoint reads from. -/
def Chan.setR (ch : Chan) : Side → HalfConn → Chan
  | .A, h => { ch with a := h }
  | .B, h => { ch with b := h }

/-- Replace the half this endpoint writes to. -/
def Chan.setW (ch : Chan) : Side → HalfConn → Chan
  | .A, h => { ch with b := h }
  | .B, h => { ch with a := h }

/-- Embeds the unexported `Conn.close`: if this endpoint's read buffer is
still allocated, release it, set end-of-stream on both halves and wake
all waiters on both condition variables; otherwise do nothing. -/
def Chan.closeOp (ch : Chan) (s : Side) : Chan :=
  let r := ch.rhalf s
  if r.buf ≠ none then
    let r' := { r with buf := none, eof := true, bcasts := r.bcasts + 1 }
    let w := ch.whalf s
    let w' := { w with eof := true, bcasts := w.bcasts + 1 }
    (ch.setR s r').setW s w'
  else
    ch

/-- Embeds `Conn.Close`, which always returns a nil error. -/
def Chan.CloseFn (ch : Chan) (s : Side) : Chan × Option NetErr :=
  (ch.closeOp s, none)

/-- Embeds `Conn.Read`: delegate to the read half with this endpoint's
read deadline, timeout and own address; on observing `io.EOF` also run
`Conn.close`. -/
def Chan.ReadOp (ch : Chan) (s : Side) (blen : Nat) (now : Instant) :
    Option (Chan × List Nat × Option NetErr) :=
  let r := ch.rhalf s
  match r.read blen (ch.ep s).rd (ch.ep s).t now r.addr with
  | none => none
  | some (r', bytes, err) =>
    let ch' := ch.setR s r'
    if err = some NetErr.eofErr then some (ch'.closeOp s, bytes, err)
    else some (ch', bytes, err)

/-- Embeds `Conn.Write`: delegate to the write half with this endpoint's
write deadline, timeout and its reader's address. -/
def Chan.WriteOp (ch : Chan) (s : Side) (b : List Nat) (now : Instant) :
    Option (Chan × Nat × Option NetErr) :=
  match (ch.whalf s).write b (ch.ep s).wd (ch.ep s).t now (ch.rhalf s).addr with
  | none => none
  | some (w', n, err) => some (ch.setW s w', n, err)

/-- Embeds `Conn.Clear`: truncate both buffers (a released buffer stays
released), zero both offsets and wake all waiters. -/
def Chan.ClearOp (ch : Chan) : Chan :=
  { ch with
    a := { ch.a with buf := ch.a.buf.map (fun _ => ([] : List Nat)),
                     off := 0, bcasts := ch.a.bcasts + 1 },
    b := { ch.b with buf := ch.b.buf.map (fun _ => ([] : List Nat)),
                     off := 0, bcasts := ch.b.bcasts + 1 } }

/-- Embeds `Conn.SetReadDeadline`. -/
def Chan.setReadDeadline (ch : Chan) (s : Side) (d : Option Instant) : Chan :=
  match s with
  | .A => { ch with ea := { ch.ea with rd := d } }
  | .B => { ch with eb := { ch.eb with rd := d } }

/-! Script engine of `T.script` (mock.go, part_000 generation).  Script
actions are the runtime types dispatched by the interpreter: a prefixed
string, a `Send` or `Recv` byte payload, a `ScriptFunc`, or any other
value (which the `default` arm rejects).  The surrounding world — the
errors returned by `WriteLine`/`Flush`/`Write`, the bytes and error
returned by `ReadLine`/`ReadFull`, and the error returned by a
`ScriptFunc` — is supplied per action by an `ActionEnv`. -/

/-- A script action value, as dispatched by the type switch in
`T.script`. -/
inductive Action where
  | str (s : String)
  | sendRaw (b : List Nat)
  | recvRaw (b : List Nat)
  | ctl
  | other (tyName : String)
deriving DecidableEq

/-- External responses consumed by one script action. -/
structure ActionEnv where
  writeErr : Option String
  flushErr : Option String
  readLine : String
  readLineErr : Option String
  readRaw : List Nat
  readRawErr : Option String
  ctlErr : Option String
deriving DecidableEq

/-- Embeds `T.flush`: the first error among the write error and the
flush error, if any, makes the action panic. -/
def flushOutcome (ln : Nat) (env : ActionEnv) : Option String :=
  match env.writeErr with
  | some e => some ("[#" ++ toString ln ++ "] write error: " ++ e)
  | none =>
    match env.flushErr with
    | some e => some ("[#" ++ toString ln ++ "] write error: " ++ e)
    | none => none

/-- Runs one script action with 1-based index `ln`; `some msg` is the
panic value raised by the action, `none` is normal completion.  Embeds
the `switch` body of `T.script` together with the helpers `T.flush`,
`T.compare` and `T.run`, which funnel every failure into a panic.  The
`fmt.Sprintf` `%+q`/`%T` formatting of the panic messages is abbreviated
to plain concatenation; only where which action panics matters here, not
the exact message text. -/
def runAction (ln : Nat) (act : Action) (env : ActionEnv) : Option String :=
  match act with
  | .str s =>
    if s.startsWith "S: " then flushOutcome ln env
    else if s.startsWith "C: " then
      if s.drop 3 = env.readLine ∧ env.readLineErr = none then none
      else some ("[#" ++ toString ln ++ "] expected " ++ s.drop 3 ++
        "; got " ++ env.readLine)
    else some ("[#" ++ toString ln ++ "] " ++ s ++
      " must be prefixed with S: or C: ")
  | .sendRaw _ => flushOutcome ln env
  | .recvRaw want =>
    if want = env.readRaw ∧ env.readRawErr = none then none
    else some ("[#" ++ toString ln ++ "] raw data mismatch")
  | .ctl =>
    match env.ctlErr with
    | some e => some ("[#" ++ toString ln ++ "] ScriptFunc error: " ++ e)
    | none => none
  | .other tyName =>
    some ("[#" ++ toString ln ++ "] " ++ tyName ++
      " is not a valid script action")

/-- Runs the actions in order starting at 1-based index `ln`; the first
panic aborts the run and becomes the result. -/
def runScriptFrom (envs : Nat → ActionEnv) : Nat → List Action → Option String
  | _, [] => none
  | ln, act :: rest =>
    match runAction ln act (envs ln) with
    | some p => some p
    | none => runScriptFrom envs (ln + 1) rest

/-- The recovered value of one whole run of the loop body of `T.script`:
`none` when every action completes, otherwise the first panic value. -/
def runScript (acts : List Action) (envs : Nat → ActionEnv) : Option String :=
  runScriptFrom envs 1 acts

/-- An operation performed on the outcome channel. -/
inductive ChanEvent where
  | sendEv (v : Option String)
  | closeEv
deriving DecidableEq

/-- Embeds `T.script` as a whole: the loop body runs (touching the
channel not at all), then the deferred
`func() { ch <- recover(); close(ch) }` performs exactly the operations
of this event list, on every exit path, panicking or not. -/
def scriptChanEvents (acts : List Action) (envs : Nat → ActionEnv) :
    List ChanEvent :=
  [ChanEvent.sendEv (runScript acts envs), ChanEvent.closeEv]

/-- State of a Go channel of outcomes: its capacity, the buffered values
in FIFO order, whether it has been closed, and a ghost count of completed
sends. -/
structure GoChan where
  capacity : Nat
  buffered : List (Option String)
  closed : Bool
  sends : Nat
deriving DecidableEq

/-- The fresh capacity-1 outcome channel made by `T.Script`. -/
def GoChan.mk1 : GoChan :=
  { capacity := 1, buffered := [], closed := false, sends := 0 }

/-- Result of running channel operations: the new state, or a blocked
send (no receiver and no buffer space), or a run-time panic (send on a
closed channel, double close). -/
inductive ChanRun where
  | ok (c : GoChan)
  | blockedSend
  | panicked
deriving DecidableEq

/-- Go channel semantics for one operation, with no concurrent
receiver. -/
def GoChan.step (c : GoChan) : ChanEvent → ChanRun
  | .sendEv v =>
    if c.closed then .panicked
    else if c.buffered.length < c.capacity then
      .ok { c with buffered := c.buffered ++ [v], sends := c.sends + 1 }
    else .blockedSend
  | .closeEv => if c.closed then .panicked else .ok { c with closed := true }

/-- Runs a list of channel operations in order. -/
def GoChan.runEvents : GoChan → List ChanEvent → ChanRun
  | c, [] => .ok c
  | c, e :: rest =>
    match c.step e with
    | .ok c' => GoChan.runEvents c' rest
    | r => r

/-- A receive `v, ok := <-ch` with no concurrent sender: `none` when the
receive blocks forever (nil channel, or open and empty channel). -/
def chanRecv : Option GoChan → Option ((Option String × Bool) × GoChan)
  | none => none
  | some c =>
    match c.buffered with
    | v :: rest => some ((v, true), { c with buffered := rest })
    | [] => if c.closed then some ((none, false), c) else none

/-- What `T.Join` reported: the server-side outcome passed to `Errorf`,
whether the distinct `called without an active script` report was issued
via `Fatalf`, the client-side error passed to `Errorf`, and whether the
test ended marked as failed. -/
structure JoinReport where
  serverReported : Option String
  noActiveScript : Bool
  clientReported : Option String
  failed : Bool
deriving DecidableEq

/-- Embeds `T.Join` (part_000 generation) on a test not yet marked
failed: receive from `t.ch`; a non-nil outcome is reported as the server
error; otherwise a closed-channel receive is the fatal
`called without an active script` report, which stops before the client
error is examined.  `none` is a call that blocks forever. -/
def TJoin (ch : Option GoChan) (clientErr : Option String) :
    Option JoinReport :=
  match chanRecv ch with
  | none => none
  | some ((v, ok), _) =>
    match v with
    | some e =>
      some { serverReported := some e, noActiveScript := false,
             clientReported := clientErr, failed := true }
    | none =>
      if ok then
        some { serverReported := none, noActiveScript := false,
               clientReported := clientErr, failed := clientErr ≠ none }
      else
        some { serverReported := none, noActiveScript := true,
               clientReported := none, failed := true }

/-! The `imap.MockServer` shim (server.go). -/

/-- Errors returned by `mockServer.EnableTLS`. -/
inductive TransportErr where
  | encryptionActive
  | handshakeFailed
deriving DecidableEq

/-- State of the `transport` behind a `mockServer`, as far as
`EnableTLS` touches it: the connection handle, the compression flag, and
which connection the buffered and compressed links read and write.
Modelled from the spec: the `transport` type itself is not in the
sources; the spec says the surrogate can report compressed/encrypted
status and that enabling encryption performs a server-role handshake and
re-wraps the channel over the new connection. -/
structure Transport where
  conn : Nat
  encrypted : Bool
  compressed : Bool
  bufLinkDst : Nat
  cmpLinkDst : Nat
deriving DecidableEq

/-- Modelled from the spec: `transport.Encrypted()` reports whether the
transport is already encrypted. -/
def Transport.Encrypted (t : Transport) : Bool := t.encrypted

/-- Embeds `mockServer.EnableTLS`: refuse when already encrypted, else
attempt the handshake (its success and the new connection handle are
supplied by the environment) and, on success, install the TLS connection
and re-attach whichever link is active.  The last component records
whether a handshake was attempted at all. -/
def mockServerEnableTLS (t : Transport) (handshakeOk : Bool)
    (tlsConn : Nat) : Transport × Option TransportErr × Bool :=
  if t.Encrypted then
    (t, some .encryptionActive, false)
  else if handshakeOk then
    (if t.compressed then
      { t with conn := tlsConn, encrypted := true, cmpLinkDst := tlsConn }
    else
      { t with conn := tlsConn, encrypted := true, bufLinkDst := tlsConn },
     none, true)
  else
    (t, some .handshakeFailed, true)

/-! Small accessor lemmas about the endpoint plumbing. -/

@[simp]
theorem Chan.rhalf_setR (ch : Chan) (s : Side) (h : HalfConn) :
    (ch.setR s h).rhalf s = h := by
  cases s <;> rfl

@[simp]
theorem Chan.whalf_setR (ch : Chan) (s : Side) (h : HalfConn) :
    (ch.setR s h).whalf s = ch.whalf s := by
  cases s <;> rfl

@[simp]
theorem Chan.rhalf_setW (ch : Chan) (s : Side) (h : HalfConn) :
    (ch.setW s h).rhalf s = ch.rhalf s := by
  cases s <;> rfl

@[simp]
theorem Chan.whalf_setW (ch : Chan) (s : Side) (h : HalfConn) :
    (ch.setW s h).whalf s = h := by
  cases s <;> rfl

@[simp]
theorem Chan.rhalf_other (ch : Chan) (s : Side) :
    ch.rhalf s.other = ch.whalf s := by
  cases s <;> rfl

@[simp]
theorem Chan.whalf_other (ch : Chan) (s : Side) :
    ch.whalf s.other = ch.rhalf s := by
  cases s <;> rfl

@[simp]
theorem Chan.setR_rhalf (ch : Chan) (s : Side) :
    ch.setR s (ch.rhalf s) = ch := by
  cases s <;> rfl

@[simp]
theorem Chan.ep_setR (ch : Chan) (s s' : Side) (h : HalfConn) :
    (ch.setR s h).ep s' = ch.ep s' := by
  cases s <;> cases s' <;> rfl

@[simp]
theorem Chan.ep_setW (ch : Chan) (s s' : Side) (h : HalfConn) :
    (ch.setW s h).ep s' = ch.ep s' := by
  cases s <;> cases s' <;> rfl

/-! ### C3 — a script run delivers exactly one outcome and closes the
channel -/

/-- C3: running the channel operations performed by `T.script` — the
deferred `ch <- recover(); close(ch)` on any exit path, panicking or not
— against the semantics of the fresh capacity-1 outcome channel never
blocks, never panics (so the channel is never sent to twice and never
closed twice), completes exactly one send whose value is the run's
outcome (`none` on success, the fault value when the run fails by
panicking), and leaves the channel closed. -/
theorem script_delivers_one_outcome (acts : List Action)
    (envs : Nat → ActionEnv) :
    GoChan.runEvents GoChan.mk1 (scriptChanEvents acts envs) =
      ChanRun.ok { capacity := 1, buffered := [runScript acts envs],
                   closed := true, sends := 1 } := rfl

/-! ### C7 — effective expiry computed by `netTimer.Set` -/

/-- C7 counterexample: a zero timeout does not mean "no wait".
`netTimer.Set` with a zero timeout and no deadline configures no expiry
at all, `netTimer.Timeout` consequently never fires, and a blocking read
on an empty buffer with a zero timeout blocks forever instead of
returning at once. -/
theorem netTimer_zero_timeout_cex :
    netTimerSet 0 none 0 = none ∧
    netTimerExpired (netTimerSet 0 none 0) 0 = false ∧
    HalfConn.read (newHalfConn "x" 4) 1 none 0 0 "x" = none :=
  ⟨rfl, rfl, rfl⟩

/-- C7 (amended): when both an absolute deadline and a positive timeout
are given, the effective expiry is the earlier of the deadline and
`now + timeout`; when only one is set, it is that one; when no expiry is
configured the timer never fires (block forever).  A zero — in fact any
non-positive — timeout is treated as unset and contributes no expiry; it
does not mean "no wait". -/
theorem netTimer_set_effective_expiry (now dl : Instant) (d : Option Instant)
    (timeout : Int) :
    (0 < timeout →
      netTimerSet now (some dl) timeout = some (min dl (now + timeout))) ∧
    (0 < timeout → netTimerSet now none timeout = some (now + timeout)) ∧
    (timeout ≤ 0 → netTimerSet now d timeout = d) ∧
    netTimerExpired none now = false := by
  refine ⟨fun h => ?_, fun h => ?_, fun h => ?_, rfl⟩
  · simp only [netTimerSet, if_pos h]
    rcases lt_or_le dl (now + timeout) with h' | h'
    · rw [if_pos h', min_eq_left h'.le]
    · rw [if_neg (not_lt.mpr h'), min_eq_right h']
  · simp [netTimerSet, if_pos h]
  · simp [netTimerSet, not_lt.mpr h]

/-- Witness for C7 at concrete inputs: a deadline of 3 with timeout 5
from instant 0 expires at 3, and a negative timeout leaves no expiry. -/
theorem netTimer_set_effective_expiry_witness :
    netTimerSet 0 (some 3) 5 = some (min 3 (0 + 5)) ∧
    netTimerSet 0 (some 3) (-2) = some 3 :=
  ⟨(netTimer_set_effective_expiry 0 3 (some 3) 5).1 (by norm_num),
   (netTimer_set_effective_expiry 0 3 (some 3) (-2)).2.2.1 (by norm_num)⟩

/-! ### C8 — `T.Join` without an active script -/

/-- C8 counterexample: calling `Join` when no script run was ever
started means receiving from the `nil` channel `t.ch`, which blocks
forever (result `none`): no "no active run" failure report is ever
produced, so the call does not fail loudly as the claim states. -/
theorem join_never_started_cex : TJoin none none = none := rfl

/-- C8 (amended): calling `Join` when no script was ever started blocks
forever on the nil outcome channel rather than reporting; the distinct
"called without an active script" fatal report is produced when `Join`
runs after a previous run's outcome was already consumed (closed and
drained channel), and it is distinguishable from the nil-outcome success
of a completed run, which reports nothing and leaves the test passing
when the client side is clean. -/
theorem join_reports (clientErr : Option String) (c : GoChan) :
    TJoin none clientErr = none ∧
    (c.buffered = [] → c.closed = true →
      TJoin (some c) clientErr =
        some { serverReported := none, noActiveScript := true,
               clientReported := none, failed := true }) ∧
    (c.buffered = [none] →
      TJoin (some c) clientErr =
        some { serverReported := none, noActiveScript := false,
               clientReported := clientErr, failed := clientErr ≠ none }) := by
  refine ⟨rfl, fun h1 h2 => ?_, fun h1 => ?_⟩
  · simp [TJoin, chanRecv, h1, h2]
  · simp [TJoin, chanRecv, h1]

/-- Witness for C8 at a concrete channel: after a consumed run the
distinct fatal report fires; after a clean run the zero outcome is
received with no report. -/
theorem join_reports_witness :
    TJoin (some { capacity := 1, buffered := [], closed := true, sends := 1 })
        none =
      some { serverReported := none, noActiveScript := true,
             clientReported := none, failed := true } ∧
    TJoin (some { capacity := 1, buffered := [none], closed := true,
                  sends := 1 }) none =
      some { serverReported := none, noActiveScript := false,
             clientReported := none, failed := (none : Option String) ≠ none } :=
  ⟨((join_reports none
        { capacity := 1, buffered := [], closed := true, sends := 1 }).2.1
      rfl rfl),
   ((join_reports none
        { capacity := 1, buffered := [none], closed := true, sends := 1 }).2.2
      rfl)⟩

/-! ### C9 — idempotence of `Conn.Close` -/

/-- C9 counterexample: after endpoint A closes the channel, a first
`Close` by the peer endpoint B does not leave the channel state
unchanged — it releases B's read buffer — even though both calls return
a nil error.  So "Close a second time by either endpoint is a no-op" is
false as stated. -/
theorem close_cross_endpoint_cex :
    (((newConn "c" "s" 0).CloseFn Side.A).1.CloseFn Side.B).1 ≠
      ((newConn "c" "s" 0).CloseFn Side.A).1 ∧
    (((newConn "c" "s" 0).CloseFn Side.A).1.CloseFn Side.B).2 = none := by
  exact ⟨by decide, rfl⟩

/-- C9 (amended): `Conn.Close` always returns a nil error, and it is
idempotent per endpoint: a second `Close` by the same endpoint leaves
the channel state unchanged, a no-op rather than an error.  (A first
`Close` by the peer endpoint still releases the peer's own read
buffer.) -/
theorem close_idempotent_same_endpoint (ch : Chan) (s : Side) :
    (ch.CloseFn s).2 = none ∧
    ((ch.CloseFn s).1.CloseFn s).1 = (ch.CloseFn s).1 := by
  refine ⟨rfl, ?_⟩
  show ((ch.closeOp s).closeOp s) = ch.closeOp s
  by_cases h : (ch.rhalf s).buf = none
  · simp [Chan.closeOp, h]
  · have h1 : ((ch.closeOp s).rhalf s).buf = none := by
      simp [Chan.closeOp, h]
    rw [Chan.closeOp, if_neg (by simp [h1])]

/-! ### C10 — `mockServer.EnableTLS` on an already-encrypted transport -/

/-- C10: when the transport is already encrypted, `EnableTLS` returns
`ErrEncryptionActive` and changes nothing: the transport state is
returned untouched and no handshake is attempted, so neither the
underlying connection nor the buffer/compression link wiring is
modified. -/
theorem enableTLS_when_encrypted (t : Transport) (handshakeOk : Bool)
    (tlsConn : Nat) (h : t.Encrypted = true) :
    mockServerEnableTLS t handshakeOk tlsConn =
      (t, some TransportErr.encryptionActive, false) := by
  simp [mockServerEnableTLS, h]

/-- Witness for C10 at a concrete encrypted transport. -/
theorem enableTLS_when_encrypted_witness :
    mockServerEnableTLS
        { conn := 5, encrypted := true, compressed := false,
          bufLinkDst := 5, cmpLinkDst := 0 } true 9 =
      ({ conn := 5, encrypted := true, compressed := false,
         bufLinkDst := 5, cmpLinkDst := 0 },
       some TransportErr.encryptionActive, false) :=
  enableTLS_when_encrypted _ true 9 rfl

/-! ### C2 — priority order of the `halfConn.read` wait loop -/

/-- C2: on every evaluation of its wait loop body, `halfConn.read`
decides by checking, in this priority order: (1) released buffer →
end-of-stream, even when the deadline has also expired; (2) expired
deadline/timeout → timeout error, even when data is available; (3)
zero-capacity destination → zero bytes, nil error, buffer untouched; (4)
data available → copy up to the destination's capacity starting at the
read offset, wake the blocked writer (one broadcast), return
end-of-stream together with the copied bytes exactly when the writer had
closed and the buffer was just fully drained, resetting the buffer on
full drain and otherwise advancing the offset; (5) otherwise park on the
condition variable and re-evaluate on wake-up (result `none` under
single-threaded semantics).  Partial reads are legal: case (4) returns
immediately with whatever is available. -/
theorem read_state_priority (c : HalfConn) (blen : Nat) (d : Option Instant)
    (t : Int) (now : Instant) (addr : String) :
    (c.buf = none →
      c.read blen d t now addr = some (c, [], some NetErr.eofErr)) ∧
    (∀ data, c.buf = some data →
      netTimerExpired (netTimerSet now d t) now = true →
      c.read blen d t now addr =
        some (c, [],
          some (NetErr.timeoutErr ("mock(" ++ addr ++ "): read timeout")))) ∧
    (∀ data, c.buf = some data →
      netTimerExpired (netTimerSet now d t) now = false → blen = 0 →
      c.read blen d t now addr = some (c, [], none)) ∧
    (∀ data, c.buf = some data →
      netTimerExpired (netTimerSet now d t) now = false → 0 < blen →
      0 < data.length →
      ∃ c' err, c.read blen d t now addr =
          some (c', (data.drop c.off).take blen, err) ∧
        c'.bcasts = c.bcasts + 1 ∧
        (err = some NetErr.eofErr ↔
          c.eof = true ∧
            c.off + ((data.drop c.off).take blen).length = data.length) ∧
        (c.off + ((data.drop c.off).take blen).length = data.length →
          c'.buf = some [] ∧ c'.off = 0) ∧
        (c.off + ((data.drop c.off).take blen).length ≠ data.length →
          c'.buf = some data ∧
            c'.off = c.off + ((data.drop c.off).take blen).length)) ∧
    (∀ data, c.buf = some data →
      netTimerExpired (netTimerSet now d t) now = false → 0 < blen →
      data.length = 0 → c.read blen d t now addr = none) := by
  refine ⟨fun h => ?_, fun data hbuf hexp => ?_, fun data hbuf hexp hblen => ?_,
    fun data hbuf hexp hblen hdata => ?_,
    fun data hbuf hexp hblen hdata => ?_⟩
  · simp [HalfConn.read, h]
  · simp [HalfConn.read, hbuf, hexp]
  · simp [HalfConn.read, hbuf, hexp, hblen]
  · have hne : ¬(blen = 0) := Nat.pos_iff_ne_zero.mp hblen
    have hlen : ((data.drop c.off).take blen).length =
        min blen (data.length - c.off) := by
      rw [List.length_take, List.length_drop]
    by_cases hdr : c.off + ((data.drop c.off).take blen).length = data.length
    · have hdr' : c.off + min blen (data.length - c.off) = data.length := by
        rw [← hlen]
        exact hdr
      refine ⟨{ c with buf := some [], off := 0, bcasts := c.bcasts + 1 },
        if c.eof then some NetErr.eofErr else none, ?_, rfl, ?_,
        fun _ => ⟨rfl, rfl⟩, fun h => absurd hdr h⟩
      · simp [HalfConn.read, hbuf, hexp, hne, hdata, hdr']
      · cases heof : c.eof
        · exact iff_of_false (by simp) (by simp)
        · exact iff_of_true (by simp) ⟨rfl, hdr⟩
    · have hdr' : ¬(c.off + min blen (data.length - c.off) = data.length) := by
        rw [← hlen]
        exact hdr
      refine ⟨{ c with off := c.off + ((data.drop c.off).take blen).length, bcasts := c.bcasts + 1 }, none, ?_, rfl,
        iff_of_false (by simp) (fun h2 => hdr h2.2),
        fun h => absurd h hdr, fun _ => ⟨hbuf, rfl⟩⟩
      simp [HalfConn.read, hbuf, hexp, hne, hdata, hdr']
  · have hne : ¬(blen = 0) := Nat.pos_iff_ne_zero.mp hblen
    have hnd : ¬(0 < data.length) := by omega
    simp [HalfConn.read, hbuf, hexp, hne, hnd]

/-- Witness for C2 at a concrete state: a released buffer wins over an
expired deadline and yields end-of-stream. -/
theorem read_state_priority_witness :
    HalfConn.read
        { addr := "x", buf := none, bufCap := 4096, off := 0, eof := true,
          bcasts := 1 } 3 (some (-5)) 0 0 "x" =
      some ({ addr := "x", buf := none, bufCap := 4096, off := 0,
              eof := true, bcasts := 1 }, [], some NetErr.eofErr) :=
  (read_state_priority _ 3 (some (-5)) 0 0 "x").1 rfl

/-! ### C4 — an already-expired deadline never blocks -/

/-- C4 counterexample: on a halfConn whose buffer was already released
(the channel is closed), a read whose effective deadline is strictly in
the past returns `io.EOF` — an error that is not marked as a
timeout-class condition — rather than a timeout error, because the
end-of-stream check precedes the deadline check.  The state is the one
`Conn.close` produces on a fresh connection. -/
theorem past_deadline_eof_cex :
    HalfConn.read
        { addr := "x", buf := none, bufCap := 4096, off := 0, eof := true,
          bcasts := 1 } 1 (some (-5)) 0 0 "x" =
      some ({ addr := "x", buf := none, bufCap := 4096, off := 0,
              eof := true, bcasts := 1 }, [], some NetErr.eofErr) ∧
    NetErr.eofErr.timeoutClass = false :=
  ⟨rfl, rfl⟩

/-- C4 (amended): for every blocking read or write call on a halfConn
that has not reached end-of-stream (for a read, the buffer is not
released; for a write, the eof flag is unset) whose effective deadline
is strictly in the past at call time, the call returns immediately — on
the very first evaluation of the loop body, never parking on the
condition variable — with an error marked as a timeout-class condition
(`Timeout()` reports true) whose `Temporary()` method reports false.  On
a halfConn already at end-of-stream such a call instead returns `io.EOF`
immediately. -/
theorem past_deadline_immediate_timeout (c : HalfConn) (blen : Nat)
    (b : List Nat) (d : Option Instant) (t : Int) (now e : Instant)
    (addr : String) (hset : netTimerSet now d t = some e) (hpast : e < now) :
    (c.buf ≠ none →
      c.read blen d t now addr =
        some (c, [],
          some (NetErr.timeoutErr ("mock(" ++ addr ++ "): read timeout")))) ∧
    (c.eof = false →
      c.write b d t now addr =
        some (c, 0,
          some (NetErr.timeoutErr ("mock(" ++ addr ++ "): write timeout")))) ∧
    (NetErr.timeoutErr ("mock(" ++ addr ++ "): read timeout")).timeoutClass
      = true ∧
    (NetErr.timeoutErr ("mock(" ++ addr ++ "): write timeout")).timeoutClass
      = true ∧
    netTimeoutTemporaryMethod = false := by
  have hexp : netTimerExpired (netTimerSet now d t) now = true := by
    rw [hset, netTimerExpired]
    simpa using hpast.le
  refine ⟨fun h => ?_, fun h => ?_, rfl, rfl, rfl⟩
  · obtain ⟨data, hbuf⟩ := Option.ne_none_iff_exists'.mp h
    simp [HalfConn.read, hbuf, hexp]
  · simp [HalfConn.write, HalfConn.writeLoop, h, hexp]

/-- Witness for C4 at a concrete yet-open halfConn with a deadline 5
units in the past: both the read and the write return the timeout error
at once. -/
theorem past_deadline_immediate_timeout_witness :
    HalfConn.read (newHalfConn "x" 4) 1 (some (-5)) 0 0 "x" =
      some (newHalfConn "x" 4, [],
        some (NetErr.timeoutErr ("mock(" ++ "x" ++ "): read timeout"))) ∧
    HalfConn.write (newHalfConn "x" 4) [9] (some (-5)) 0 0 "x" =
      some (newHalfConn "x" 4, 0,
        some (NetErr.timeoutErr ("mock(" ++ "x" ++ "): write timeout"))) :=
  ⟨(past_deadline_immediate_timeout (newHalfConn "x" 4) 1 [9] (some (-5)) 0 0
      (-5) "x" rfl (by norm_num)).1 (by simp [newHalfConn]),
   (past_deadline_immediate_timeout (newHalfConn "x" 4) 1 [9] (some (-5)) 0 0
      (-5) "x" rfl (by norm_num)).2.1 rfl⟩

/-! ### C6 — the buffer invariant and monotonicity of end-of-stream -/

/-- The invariant of the claim: whenever the buffer is live,
`0 ≤ offset ≤ length(buffer) ≤ capacity` (the lower bound is inherent in
`Nat`). -/
def HalfConn.WF (c : HalfConn) : Prop :=
  ∀ data, c.buf = some data → c.off ≤ data.length ∧ data.length ≤ c.bufCap

/-- Companion reachability invariant: the buffer is only ever released
together with setting the end-of-stream flag (`Conn.close` does both),
so a released buffer implies eof. -/
def HalfConn.Linked (c : HalfConn) : Prop := c.buf = none → c.eof = true

/-- Whole-channel invariant: both halves are well-formed and linked. -/
def Chan.WFC (ch : Chan) : Prop :=
  ch.a.WF ∧ ch.a.Linked ∧ ch.b.WF ∧ ch.b.Linked

/-- A fresh halfConn satisfies both invariants. -/
theorem newHalfConn_WF (addr : String) (bufSize : Nat) :
    (newHalfConn addr bufSize).WF ∧ (newHalfConn addr bufSize).Linked := by
  constructor
  · intro data h
    simp only [newHalfConn, Option.some.injEq] at h
    subst h
    simp [newHalfConn]
  · intro h
    simp [newHalfConn] at h

/-- The append iteration does not touch eof. -/
theorem writeAppend_eof (c : HalfConn) (b : List Nat) (n : Nat) :
    (c.writeAppend b n).1.eof = c.eof := rfl

/-- The append iteration does not touch the capacity. -/
theorem writeAppend_bufCap (c : HalfConn) (b : List Nat) (n : Nat) :
    (c.writeAppend b n).1.bufCap = c.bufCap := rfl

/-- The append iteration preserves the buffer invariant. -/
theorem writeAppend_WF (c : HalfConn) (b : List Nat) (n : Nat)
    (data : List Nat) (hbuf : c.buf = some data)
    (hwfd : c.off ≤ data.length ∧ data.length ≤ c.bufCap) :
    (c.writeAppend b n).1.WF ∧ (c.writeAppend b n).1.Linked := by
  constructor
  · intro d2 h2
    by_cases hfull : data.length = c.bufCap
    · simp only [HalfConn.writeAppend, hbuf, Option.getD_some, if_pos hfull,
        Option.some.injEq] at h2 ⊢
      subst h2
      simp only [List.length_append, List.length_take, List.length_drop]
      omega
    · simp only [HalfConn.writeAppend, hbuf, Option.getD_some, if_neg hfull,
        Option.some.injEq] at h2 ⊢
      subst h2
      simp only [List.length_append, List.length_take, List.length_drop]
      omega
  · intro h2
    simp [HalfConn.writeAppend] at h2

/-- Invariant preservation through the write loop, together with
end-of-stream and capacity stability. -/
theorem writeLoop_WF : ∀ (fuel : Nat) (c : HalfConn) (b : List Nat) (n : Nat)
    (expired : Bool) (addr : String) (out : HalfConn × Nat × Option NetErr),
    c.WF → c.Linked → HalfConn.writeLoop c b n expired addr fuel = some out →
    out.1.WF ∧ out.1.Linked ∧ out.1.eof = c.eof ∧ out.1.bufCap = c.bufCap
  | 0, c, b, n, expired, addr, out => by
    intro _ _ h
    simp [HalfConn.writeLoop] at h
  | fuel + 1, c, b, n, expired, addr, out => by
    intro hwf hlink h
    rw [HalfConn.writeLoop] at h
    by_cases heof : c.eof = true
    · rw [if_pos heof] at h
      cases h
      exact ⟨hwf, hlink, rfl, rfl⟩
    · rw [if_neg heof] at h
      by_cases hexp : expired = true
      · rw [if_pos hexp] at h
        cases h
        exact ⟨hwf, hlink, rfl, rfl⟩
      · rw [if_neg hexp] at h
        by_cases hb : b.length = 0
        · rw [if_pos hb] at h
          cases h
          exact ⟨hwf, hlink, rfl, rfl⟩
        · rw [if_neg hb] at h
          obtain ⟨data, hbuf⟩ : ∃ data, c.buf = some data := by
            cases hcb : c.buf with
            | none => exact absurd (hlink hcb) heof
            | some data => exact ⟨data, rfl⟩
          by_cases hfree : (((c.buf.getD []).length : Int) - (c.off : Int)) <
              (c.bufCap : Int)
          · rw [if_pos hfree] at h
            have hwa := writeAppend_WF c b n data hbuf (hwf data hbuf)
            by_cases hdone : (c.writeAppend b n).2 = b.length
            · rw [if_pos hdone] at h
              cases h
              exact ⟨hwa.1, hwa.2, writeAppend_eof c b n,
                writeAppend_bufCap c b n⟩
            · rw [if_neg hdone] at h
              have ih := writeLoop_WF fuel (c.writeAppend b n).1 b
                (c.writeAppend b n).2 expired addr out hwa.1 hwa.2 h
              exact ⟨ih.1, ih.2.1, ih.2.2.1.trans (writeAppend_eof c b n),
                ih.2.2.2.trans (writeAppend_bufCap c b n)⟩
          · rw [if_neg hfree] at h
            cases h

/-- C6: every halfConn operation — `read`, `write`, `Conn.Clear`,
`Conn.close` — preserves the invariant `0 ≤ offset ≤ length(buffer) ≤
capacity` of every live buffer (together with the companion invariant
that a released buffer implies eof), and none of them ever clears an
end-of-stream flag that was set. -/
theorem halfConn_ops_invariant :
    (∀ (c : HalfConn) (blen : Nat) (d : Option Instant) (t : Int)
        (now : Instant) (addr : String)
        (out : HalfConn × List Nat × Option NetErr),
      c.WF → c.Linked → c.read blen d t now addr = some out →
      out.1.WF ∧ out.1.Linked ∧ (c.eof = true → out.1.eof = true)) ∧
    (∀ (c : HalfConn) (b : List Nat) (d : Option Instant) (t : Int)
        (now : Instant) (addr : String) (out : HalfConn × Nat × Option NetErr),
      c.WF → c.Linked → c.write b d t now addr = some out →
      out.1.WF ∧ out.1.Linked ∧ (c.eof = true → out.1.eof = true)) ∧
    (∀ ch : Chan, ch.WFC → ch.ClearOp.WFC ∧
      (ch.a.eof = true → ch.ClearOp.a.eof = true) ∧
      (ch.b.eof = true → ch.ClearOp.b.eof = true)) ∧
    (∀ (ch : Chan) (s : Side), ch.WFC → (ch.closeOp s).WFC ∧
      (ch.a.eof = true → (ch.closeOp s).a.eof = true) ∧
      (ch.b.eof = true → (ch.closeOp s).b.eof = true)) := by
  refine ⟨?_, ?_, ?_, ?_⟩
  · intro c blen d t now addr out hwf hlink h
    simp only [HalfConn.read] at h
    rcases hbuf : c.buf with _ | data
    · rw [hbuf] at h
      simp only [Option.some.injEq] at h
      subst h
      exact ⟨hwf, hlink, fun he => he⟩
    · rw [hbuf] at h
      simp only at h
      by_cases hexp : netTimerExpired (netTimerSet now d t) now = true
      · rw [if_pos hexp] at h
        simp only [Option.some.injEq] at h
        subst h
        exact ⟨hwf, hlink, fun he => he⟩
      · rw [if_neg hexp] at h
        by_cases hblen : blen = 0
        · rw [if_pos hblen] at h
          simp only [Option.some.injEq] at h
          subst h
          exact ⟨hwf, hlink, fun he => he⟩
        · rw [if_neg hblen] at h
          by_cases hdata : 0 < data.length
          · rw [if_pos hdata] at h
            have hwfd := hwf data hbuf
            have hlen : ((data.drop c.off).take blen).length ≤
                data.length - c.off := by
              rw [List.length_take, List.length_drop]
              exact min_le_right _ _
            by_cases hdr : c.off + ((data.drop c.off).take blen).length
                = data.length
            · rw [if_pos hdr] at h
              simp only [Option.some.injEq] at h
              subst h
              refine ⟨?_, ?_, fun he => he⟩
              · intro d2 h2
                simp only [Option.some.injEq] at h2
                subst h2
                simp
              · intro h2
                simp at h2
            · rw [if_neg hdr] at h
              simp only [Option.some.injEq] at h
              subst h
              refine ⟨?_, ?_, fun he => he⟩
              · intro d2 h2
                have h3 : some data = some d2 := h2
                injection h3 with h3
                subst h3
                refine ⟨?_, hwfd.2⟩
                show c.off + ((data.drop c.off).take blen).length ≤ data.length
                omega
              · intro h2
                exact Option.noConfusion (h2 : some data = none)
          · rw [if_neg hdata] at h
            cases h
  · intro c b d t now addr out hwf hlink h
    have hl := writeLoop_WF (b.length + 1) c b 0
      (netTimerExpired (netTimerSet now d t) now) addr out hwf hlink h
    exact ⟨hl.1, hl.2.1, fun he => hl.2.2.1.trans he⟩
  · intro ch hwfc
    obtain ⟨hwa, hla, hwb, hlb⟩ := hwfc
    refine ⟨⟨?_, ?_, ?_, ?_⟩, fun he => he, fun he => he⟩
    · intro d2 h2
      simp only [Chan.ClearOp, Option.map_eq_some'] at h2
      obtain ⟨data, -, h3⟩ := h2
      subst h3
      simp [Chan.ClearOp]
    · intro h2
      simp only [Chan.ClearOp, Option.map_eq_none'] at h2
      exact hla h2
    · intro d2 h2
      simp only [Chan.ClearOp, Option.map_eq_some'] at h2
      obtain ⟨data, -, h3⟩ := h2
      subst h3
      simp [Chan.ClearOp]
    · intro h2
      simp only [Chan.ClearOp, Option.map_eq_none'] at h2
      exact hlb h2
  · intro ch s hwfc
    obtain ⟨hwa, hla, hwb, hlb⟩ := hwfc
    rw [Chan.closeOp]
    by_cases h : (ch.rhalf s).buf = none
    · rw [if_neg (by simpa using h)]
      exact ⟨⟨hwa, hla, hwb, hlb⟩, fun he => he, fun he => he⟩
    · rw [if_pos (by simpa using h)]
      cases s
      · refine ⟨⟨?_, fun _ => rfl, ?_, ?_⟩, fun _ => rfl, ?_⟩
        · intro d2 h2
          simp only [Chan.setR, Chan.setW, Chan.whalf, Chan.rhalf] at h2
          cases h2
        · intro d2 h2
          simp only [Chan.setR, Chan.setW, Chan.whalf, Chan.rhalf] at h2
          exact hwb d2 h2
        · intro h2
          rfl
        · intro _
          rfl
      · refine ⟨⟨?_, ?_, ?_, fun _ => rfl⟩, ?_, fun _ => rfl⟩
        · intro d2 h2
          simp only [Chan.setR, Chan.setW, Chan.whalf, Chan.rhalf] at h2
          exact hwa d2 h2
        · intro h2
          rfl
        · intro d2 h2
          simp only [Chan.setR, Chan.setW, Chan.whalf, Chan.rhalf] at h2
          cases h2
        · intro _
          rfl

/-- Witness for C6: a concrete read on a well-formed halfConn preserves
the invariant. -/
theorem halfConn_ops_invariant_witness :
    HalfConn.WF { addr := "x", buf := some [5, 6], bufCap := 4, off := 1,
                  eof := false, bcasts := 2 } ∧
    HalfConn.Linked { addr := "x", buf := some [5, 6], bufCap := 4, off := 1,
                      eof := false, bcasts := 2 } := by
  have h := halfConn_ops_invariant.1
    { addr := "x", buf := some [5, 6], bufCap := 4, off := 0, eof := false,
      bcasts := 1 } 1 none 0 0 "x"
    ({ addr := "x", buf := some [5, 6], bufCap := 4, off := 1, eof := false,
       bcasts := 2 }, [5], none)
    (by
      intro data hd
      simp only [Option.some.injEq] at hd
      subst hd
      simp)
    (by
      intro hd
      simp at hd) rfl
  exact ⟨h.1, h.2.1⟩

/-! ### C1 — FIFO byte delivery through the channel -/

/-- Reordering lemma: replacing the write half twice keeps only the
second replacement. -/
@[simp]
theorem Chan.setW_setW (ch : Chan) (s : Side) (h1 h2 : HalfConn) :
    (ch.setW s h1).setW s h2 = ch.setW s h2 := by
  cases s <;> rfl

/-- Replacing the write half by itself is the identity. -/
@[simp]
theorem Chan.setW_whalf (ch : Chan) (s : Side) :
    ch.setW s (ch.whalf s) = ch := by
  cases s <;> rfl

/-- A `halfConn.write` call that starts at offset 0 on a buffer with
room for all of `b` (and no end-of-stream, no expired deadline) appends
`b` in full in a single loop iteration and returns `len(b)` with a nil
error. -/
theorem write_fits (c : HalfConn) (b : List Nat) (data : List Nat)
    (d : Option Instant) (t : Int) (now : Instant) (addr : String)
    (hbuf : c.buf = some data) (hoff : c.off = 0) (heof : c.eof = false)
    (hexp : netTimerExpired (netTimerSet now d t) now = false)
    (hfit : data.length + b.length <= c.bufCap) :
    exists k, c.write b d t now addr =
      some ({ c with buf := some (data ++ b), bcasts := k }, b.length, none) := by
  rcases Nat.eq_zero_or_pos b.length with hb | hb
  · refine ⟨c.bcasts, ?_⟩
    have hbnil : b = [] := List.length_eq_zero.mp hb
    subst hbnil
    have h1 : c.write [] d t now addr = some (c, 0, none) := by
      simp [HalfConn.write, HalfConn.writeLoop, heof, hexp]
    rw [h1, List.append_nil, ← hbuf]
    rfl
  · have hlt : data.length < c.bufCap := by omega
    have hne : data.length ≠ c.bufCap := by omega
    have hwa : c.writeAppend b 0 =
        ({ c with buf := some (data ++ b), bcasts := c.bcasts + 1 },
          b.length) := by
      simp only [HalfConn.writeAppend, hbuf, Option.getD_some, if_neg hne,
        hoff, List.drop_zero, Nat.sub_zero, Nat.zero_add]
      rw [min_eq_right (by omega), List.take_length]
    have hfree : (((c.buf.getD []).length : Int) - (c.off : Int)) <
        (c.bufCap : Int) := by
      simp only [hbuf, Option.getD_some, hoff]
      push_cast
      omega
    refine ⟨c.bcasts + 1, ?_⟩
    show HalfConn.writeLoop c b 0
      (netTimerExpired (netTimerSet now d t) now) addr (b.length + 1) =
      some ({ c with buf := some (data ++ b), bcasts := c.bcasts + 1 },
        b.length, none)
    rw [HalfConn.writeLoop, if_neg (by simp [heof]), if_neg (by simp [hexp]),
      if_neg (by omega), if_pos hfree, hwa, if_pos rfl]

/-- One endpoint's sequence of write calls: endpoint B performs the
`Conn.Write` calls in order; the fold is `none` unless every call
completes with all its bytes written and a nil error. -/
def chanWriteCalls : Chan → List (List Nat) → Option Chan
  | ch, [] => some ch
  | ch, bs :: rest =>
    match ch.WriteOp Side.B bs 0 with
    | some (ch', _, none) => chanWriteCalls ch' rest
    | _ => none

/-- The peer's sequence of read calls: endpoint A performs the
`Conn.Read` calls in order, concatenating the byte slices they return;
`none` unless every call returns with a nil error. -/
def chanReadCalls : Chan → List Nat → Option (Chan × List Nat)
  | ch, [] => some (ch, [])
  | ch, blen :: rest =>
    match ch.ReadOp Side.A blen 0 with
    | some (ch', bytes, none) =>
      match chanReadCalls ch' rest with
      | some (ch'', acc) => some (ch'', bytes ++ acc)
      | none => none
    | _ => none

/-- Writes by endpoint B whose total length fits the remaining capacity
append their bytes, in order, to the shared half. -/
theorem chanWriteCalls_appends : ∀ (ws : List (List Nat)) (ch : Chan)
    (data : List Nat),
    (ch.whalf Side.B).buf = some data → (ch.whalf Side.B).off = 0 →
    (ch.whalf Side.B).eof = false →
    netTimerExpired (netTimerSet 0 (ch.ep Side.B).wd (ch.ep Side.B).t) 0
      = false →
    data.length + (ws.map List.length).sum ≤ (ch.whalf Side.B).bufCap →
    ∃ k, chanWriteCalls ch ws = some (ch.setW Side.B
      { ch.whalf Side.B with buf := some (data ++ ws.flatten), bcasts := k })
  | [], ch, data => by
    intro hbuf hoff heof hexp hcap
    refine ⟨(ch.whalf Side.B).bcasts, ?_⟩
    rw [chanWriteCalls]
    rw [show ([] : List (List Nat)).flatten = [] from rfl, List.append_nil,
      ← hbuf]
    rw [show { ch.whalf Side.B with
               buf := (ch.whalf Side.B).buf,
               bcasts := (ch.whalf Side.B).bcasts } = ch.whalf Side.B from rfl]
    rw [Chan.setW_whalf]
  | bs :: rest, ch, data => by
    intro hbuf hoff heof hexp hcap
    have hfit : data.length + bs.length ≤ (ch.whalf Side.B).bufCap := by
      simp only [List.map_cons, List.sum_cons] at hcap
      omega
    obtain ⟨k1, hw⟩ := write_fits (ch.whalf Side.B) bs data (ch.ep Side.B).wd
      (ch.ep Side.B).t 0 (ch.rhalf Side.B).addr hbuf hoff heof hexp hfit
    obtain ⟨k2, hrest⟩ := chanWriteCalls_appends rest
      (ch.setW Side.B
        { ch.whalf Side.B with buf := some (data ++ bs), bcasts := k1 })
      (data ++ bs) (by simp) (by simpa using hoff) (by simpa using heof)
      (by simpa using hexp)
      (by
        simp only [Chan.whalf_setW, List.map_cons, List.sum_cons] at hcap ⊢
        simp only [List.length_append]
        omega)
    refine ⟨k2, ?_⟩
    rw [chanWriteCalls]
    simp only [Chan.WriteOp, hw]
    rw [hrest]
    simp only [Chan.setW_setW, Chan.whalf_setW, Chan.whalf_setR]
    rw [show (bs :: rest).flatten = bs ++ rest.flatten from List.flatten_cons ..,
      ← List.append_assoc]

/-- A read call on a live, non-eof half with `0 < blen ≤` the available
bytes consumes exactly `blen` bytes from the front and returns them with
a nil error. -/
theorem read_consume (c : HalfConn) (data : List Nat) (blen : Nat)
    (d : Option Instant) (t : Int) (now : Instant) (addr : String)
    (hbuf : c.buf = some data) (heof : c.eof = false)
    (hexp : netTimerExpired (netTimerSet now d t) now = false)
    (hoff : c.off ≤ data.length)
    (hble : blen ≤ data.length - c.off) (hpos : 0 < blen) :
    c.read blen d t now addr =
      some ((if c.off + blen = data.length
          then { c with buf := some [], off := 0, bcasts := c.bcasts + 1 }
          else { c with off := c.off + blen, bcasts := c.bcasts + 1 }),
        (data.drop c.off).take blen, none) := by
  have h1 : 0 < data.length := by omega
  have hne : ¬(blen = 0) := by omega
  have hlen : ((data.drop c.off).take blen).length = blen := by
    rw [List.length_take, List.length_drop]
    exact min_eq_left hble
  by_cases hdr : c.off + blen = data.length
  · simp [HalfConn.read, hbuf, hexp, hne, h1, hlen, hdr, heof]
  · simp [HalfConn.read, hbuf, hexp, hne, h1, hlen, hdr]

/-- Reads by endpoint A whose destination sizes sum to exactly the bytes
pending in the shared half return precisely those bytes, in order. -/
theorem chanReadCalls_drains : ∀ (ns : List Nat) (ch : Chan)
    (data : List Nat),
    (ch.rhalf Side.A).buf = some data → (ch.rhalf Side.A).eof = false →
    netTimerExpired (netTimerSet 0 (ch.ep Side.A).rd (ch.ep Side.A).t) 0
      = false →
    (ch.rhalf Side.A).off ≤ data.length →
    ns.sum = data.length - (ch.rhalf Side.A).off →
    ∃ ch', chanReadCalls ch ns = some (ch', data.drop (ch.rhalf Side.A).off)
  | [], ch, data => by
    intro hbuf heof hexp hoff hsum
    refine ⟨ch, ?_⟩
    rw [chanReadCalls, List.drop_eq_nil_of_le (by simp at hsum; omega)]
  | blen :: rest, ch, data => by
    intro hbuf heof hexp hoff hsum
    simp only [List.sum_cons] at hsum
    rcases Nat.eq_zero_or_pos blen with hb0 | hbpos
    · subst hb0
      have hr : (ch.rhalf Side.A).read 0 (ch.ep Side.A).rd (ch.ep Side.A).t 0
          (ch.rhalf Side.A).addr = some (ch.rhalf Side.A, [], none) := by
        simp [HalfConn.read, hbuf, hexp]
      obtain ⟨ch', hrec⟩ := chanReadCalls_drains rest ch data hbuf heof hexp
        hoff (by omega)
      refine ⟨ch', ?_⟩
      rw [chanReadCalls]
      simp only [Chan.ReadOp, hr]
      simp only [Chan.setR_rhalf]
      simp [hrec]
    · have hble : blen ≤ data.length - (ch.rhalf Side.A).off := by omega
      have hr := read_consume (ch.rhalf Side.A) data blen (ch.ep Side.A).rd
        (ch.ep Side.A).t 0 (ch.rhalf Side.A).addr hbuf heof hexp hoff hble
        hbpos
      by_cases hdr : (ch.rhalf Side.A).off + blen = data.length
      · rw [if_pos hdr] at hr
        obtain ⟨ch', hrec⟩ := chanReadCalls_drains rest
          (ch.setR Side.A
            { ch.rhalf Side.A with
              buf := some [], off := 0,
              bcasts := (ch.rhalf Side.A).bcasts + 1 })
          [] rfl heof hexp (Nat.zero_le _)
          (by
            show rest.sum = 0
            omega)
        simp only [List.drop_nil] at hrec
        have hbytes : (data.drop (ch.rhalf Side.A).off).take blen =
            data.drop (ch.rhalf Side.A).off :=
          List.take_of_length_le (by rw [List.length_drop]; omega)
        refine ⟨ch', ?_⟩
        simp only [chanReadCalls, Chan.ReadOp, hr]
        simp [hrec, hbytes]
      · have hlt : (ch.rhalf Side.A).off + blen < data.length := by omega
        rw [if_neg hdr] at hr
        obtain ⟨ch', hrec⟩ := chanReadCalls_drains rest
          (ch.setR Side.A
            { ch.rhalf Side.A with
              off := (ch.rhalf Side.A).off + blen,
              bcasts := (ch.rhalf Side.A).bcasts + 1 })
          data hbuf heof hexp
          (by
            rw [Chan.rhalf_setR]
            show (ch.rhalf Side.A).off + blen ≤ data.length
            omega)
          (by
            rw [Chan.rhalf_setR]
            show rest.sum = data.length - ((ch.rhalf Side.A).off + blen)
            omega)
        rw [Chan.rhalf_setR] at hrec
        have hoffc1 :
            ({ ch.rhalf Side.A with
               off := (ch.rhalf Side.A).off + blen,
               bcasts := (ch.rhalf Side.A).bcasts + 1 } : HalfConn).off =
            (ch.rhalf Side.A).off + blen := rfl
        rw [hoffc1] at hrec
        have hsplit : (data.drop (ch.rhalf Side.A).off).take blen ++
            data.drop ((ch.rhalf Side.A).off + blen) =
            data.drop (ch.rhalf Side.A).off := by
          rw [← List.drop_drop, List.take_append_drop]
        refine ⟨ch', ?_⟩
        simp only [chanReadCalls, Chan.ReadOp, hr]
        simp [hrec, hsplit]

/-- C1: for every sequence of write calls by one endpoint of a fresh
channel whose total byte length is at most the buffer capacity, followed
by a matching sequence of read calls on the peer endpoint (destination
sizes summing to the total written), every write completes in full with
a nil error and the concatenation of the bytes returned by the reads is
exactly the concatenation of the bytes written — same bytes, same order,
no loss, no duplication, no reordering. -/
theorem pipe_fifo (addrA addrB : String) (bufSize : Int)
    (ws : List (List Nat)) (ns : List Nat)
    (hcap : (ws.map List.length).sum ≤ (newConn addrA addrB bufSize).a.bufCap)
    (hsum : ns.sum = (ws.map List.length).sum) :
    ∃ chW chR, chanWriteCalls (newConn addrA addrB bufSize) ws = some chW ∧
      chanReadCalls chW ns = some (chR, ws.flatten) := by
  obtain ⟨k, hw⟩ := chanWriteCalls_appends ws (newConn addrA addrB bufSize) []
    rfl rfl rfl rfl (by simpa using hcap)
  rw [List.nil_append] at hw
  obtain ⟨chR, hrd⟩ := chanReadCalls_drains ns
    ((newConn addrA addrB bufSize).setW Side.B
      { (newConn addrA addrB bufSize).whalf Side.B with
        buf := some ws.flatten, bcasts := k })
    ws.flatten rfl rfl rfl (Nat.zero_le _)
    (by
      show ns.sum = ws.flatten.length - 0
      rw [Nat.sub_zero, List.length_flatten]
      exact hsum)
  refine ⟨_, chR, hw, ?_⟩
  have hdz : ws.flatten.drop
      ((((newConn addrA addrB bufSize).setW Side.B
        { (newConn addrA addrB bufSize).whalf Side.B with
          buf := some ws.flatten, bcasts := k }).rhalf Side.A)).off =
      ws.flatten := rfl
  rw [hdz] at hrd
  exact hrd

/-- Witness for C1 at concrete inputs: two writes of [1,2] and [3] into
a fresh channel of capacity 4, read back by reads of sizes 2 and 1,
reproduce [1,2,3]. -/
theorem pipe_fifo_witness :
    ∃ chW chR, chanWriteCalls (newConn "c" "s" 4) [[1, 2], [3]] = some chW ∧
      chanReadCalls chW [2, 1] = some (chR, [1, 2, 3]) := by
  have h := pipe_fifo "c" "s" 4 [[1, 2], [3]] [2, 1] (by decide) (by decide)
  simpa using h

/-! ### C5 — a read observing end-of-stream closes the whole channel -/

/-- Replacing the read half twice keeps only the second replacement. -/
@[simp]
theorem Chan.setR_setR (ch : Chan) (s : Side) (h1 h2 : HalfConn) :
    (ch.setR s h1).setR s h2 = ch.setR s h2 := by
  cases s <;> rfl

/-- `Conn.close` on an endpoint whose read buffer is already released is
a no-op. -/
theorem closeOp_released (ch : Chan) (s : Side)
    (h : (ch.rhalf s).buf = none) : ch.closeOp s = ch := by
  simp only [Chan.closeOp]
  rw [if_neg (by simp [h])]

/-- `Conn.close` on an endpoint whose read buffer is still allocated
releases it, sets eof on both halves and broadcasts on both condition
variables. -/
theorem closeOp_transition (ch : Chan) (s : Side)
    (h : (ch.rhalf s).buf ≠ none) :
    ch.closeOp s =
      (ch.setR s { ch.rhalf s with
                   buf := none, eof := true,
                   bcasts := (ch.rhalf s).bcasts + 1 }).setW s
        { ch.whalf s with
          eof := true, bcasts := (ch.whalf s).bcasts + 1 } := by
  simp only [Chan.closeOp]
  rw [if_pos h]

/-- Reachable-state invariant used by the amended C5 theorem: a released
read buffer implies both end-of-stream flags, because `Conn.close` — the
only code that releases a buffer — sets all three together. -/
def Chan.CloseLinked (ch : Chan) : Prop :=
  (ch.a.buf = none → ch.a.eof = true ∧ ch.b.eof = true) ∧
  (ch.b.buf = none → ch.b.eof = true ∧ ch.a.eof = true)

/-- Dissection of a `halfConn.read` call that returns `io.EOF`: either
the buffer was already released and the state is untouched, or the
buffer was live, the writer had closed (`eof` set), and the call just
fully drained and reset the buffer. -/
theorem read_eof_cases (c : HalfConn) (blen : Nat) (d : Option Instant)
    (t : Int) (now : Instant) (addr : String) (c' : HalfConn)
    (bytes : List Nat)
    (h : c.read blen d t now addr = some (c', bytes, some NetErr.eofErr)) :
    (c.buf = none ∧ c' = c ∧ bytes = []) ∨
    (c.buf ≠ none ∧ c.eof = true ∧
      c' = { c with buf := some [], off := 0, bcasts := c.bcasts + 1 }) := by
  rcases hbuf : c.buf with _ | data
  · simp only [HalfConn.read, hbuf, Option.some.injEq, Prod.mk.injEq] at h
    exact Or.inl ⟨rfl, h.1.symm, h.2.1.symm⟩
  · simp only [HalfConn.read, hbuf] at h
    by_cases hexp : netTimerExpired (netTimerSet now d t) now = true
    · rw [if_pos hexp] at h
      simp at h
    · rw [if_neg hexp] at h
      by_cases hblen : blen = 0
      · rw [if_pos hblen] at h
        simp at h
      · rw [if_neg hblen] at h
        by_cases hdat : 0 < data.length
        · rw [if_pos hdat] at h
          by_cases hdr : c.off + ((data.drop c.off).take blen).length
              = data.length
          · rw [if_pos hdr] at h
            by_cases heo : c.eof = true
            · rw [if_pos heo] at h
              simp only [Option.some.injEq, Prod.mk.injEq] at h
              exact Or.inr ⟨by simp [hbuf], heo, h.1.symm⟩
            · rw [if_neg heo] at h
              simp at h
          · rw [if_neg hdr] at h
            simp at h
        · rw [if_neg hdat] at h
          cases h

/-- C5 counterexample: after endpoint A closes, A's read observes
end-of-stream, yet the peer's subsequent read on its (empty, live)
buffer does not observe end-of-stream — it blocks forever (result
`none`) instead of returning `io.EOF` — so "the peer's blocked and
future operations observe end-of-stream" is false as stated.  (Peer
writes do observe it; peer reads on an empty buffer do not.) -/
theorem conn_read_eof_closes_cex :
    ((newConn "c" "s" 0).CloseFn Side.A).1.ReadOp Side.A 1 0 =
      some (((newConn "c" "s" 0).CloseFn Side.A).1, [],
        some NetErr.eofErr) ∧
    ((newConn "c" "s" 0).CloseFn Side.A).1.ReadOp Side.B 1 0 = none :=
  ⟨rfl, rfl⟩

/-- C5 (amended): whenever a `Conn.Read` observes end-of-stream from the
half it consumes (on a channel satisfying the reachable-state invariant
`CloseLinked`), the whole channel ends closed: the endpoint's read
buffer is released, the end-of-stream flag is set on both halves, and
when this read's close actually transitions the channel (the buffer was
not already released) both condition variables are broadcast — the read
half twice (drain and close), the write half once — so all waiters are
woken.  Consequently the peer's blocked and future writes observe
end-of-stream immediately; a peer read of an empty buffer, however,
blocks until its deadline rather than observing end-of-stream. -/
theorem conn_read_eof_closes (ch : Chan) (s : Side) (blen : Nat)
    (now : Instant) (ch' : Chan) (bytes : List Nat) (hcl : ch.CloseLinked)
    (h : ch.ReadOp s blen now = some (ch', bytes, some NetErr.eofErr)) :
    (ch'.rhalf s).buf = none ∧ (ch'.rhalf s).eof = true ∧
    (ch'.whalf s).eof = true ∧
    ((ch.rhalf s).buf ≠ none →
      (ch'.rhalf s).bcasts = (ch.rhalf s).bcasts + 2 ∧
      (ch'.whalf s).bcasts = (ch.whalf s).bcasts + 1) ∧
    (∀ (b : List Nat) (now' : Instant), ∃ ch'',
      ch'.WriteOp (Side.other s) b now' =
        some (ch'', 0, some NetErr.eofErr)) := by
  have hwr : ∀ (ch2 : Chan), (ch2.rhalf s).eof = true →
      ∀ (b : List Nat) (now' : Instant), ∃ ch'',
        ch2.WriteOp (Side.other s) b now' =
          some (ch'', 0, some NetErr.eofErr) := by
    intro ch2 h2 b now'
    have h3 : (ch2.whalf (Side.other s)).eof = true := by
      rw [Chan.whalf_other]
      exact h2
    exact ⟨ch2.setW (Side.other s) (ch2.whalf (Side.other s)), by
      simp [Chan.WriteOp, HalfConn.write, HalfConn.writeLoop, h3, h2]⟩
  simp only [Chan.ReadOp] at h
  rcases hR : (ch.rhalf s).read blen (ch.ep s).rd (ch.ep s).t now
      (ch.rhalf s).addr with _ | ⟨r', bytes', err⟩
  · rw [hR] at h
    simp at h
  · rw [hR] at h
    simp only [] at h
    by_cases herr : err = some NetErr.eofErr
    · subst herr
      rw [if_pos (show (some NetErr.eofErr : Option NetErr) =
        some NetErr.eofErr from rfl)] at h
      simp only [Option.some.injEq, Prod.mk.injEq] at h
      obtain ⟨h1, -, -⟩ := h
      subst h1
      rcases read_eof_cases _ blen _ _ now _ _ _ hR with
        ⟨hbuf, hc, -⟩ | ⟨hbuf, heo, hc⟩
      · subst hc
        rw [Chan.setR_rhalf, closeOp_released ch s hbuf]
        have heofs : (ch.rhalf s).eof = true ∧ (ch.whalf s).eof = true := by
          cases s
          · exact hcl.1 hbuf
          · exact hcl.2 hbuf
        exact ⟨hbuf, heofs.1, heofs.2, fun hc2 => absurd hbuf hc2,
          hwr ch heofs.1⟩
      · subst hc
        have hclose : ((ch.setR s
              { ch.rhalf s with
                buf := some [], off := 0,
                bcasts := (ch.rhalf s).bcasts + 1 }).closeOp s) =
            (ch.setR s { ch.rhalf s with
                         buf := none, off := 0, eof := true,
                         bcasts := (ch.rhalf s).bcasts + 2 }).setW s
              { ch.whalf s with
                eof := true, bcasts := (ch.whalf s).bcasts + 1 } := by
          rw [closeOp_transition _ s (by simp)]
          simp only [Chan.rhalf_setR, Chan.whalf_setR, Chan.setR_setR]
        rw [hclose]
        refine ⟨by simp, by simp, by simp, fun _ => ⟨by simp, by simp⟩, ?_⟩
        exact hwr _ (by simp)
    · rw [if_neg herr] at h
      simp only [Option.some.injEq, Prod.mk.injEq] at h
      exact absurd h.2.2 herr

/-- The channel state in which endpoint B has written the byte 7 and
then closed: reached from `newConn "c" "s" 0` by `WriteOp Side.B [7] 0`
and `CloseFn Side.B`. -/
def c5pre : Chan :=
  { a := { addr := "c", buf := some [7], bufCap := 4096, off := 0,
           eof := true, bcasts := 2 },
    b := { addr := "s", buf := none, bufCap := 4096, off := 0,
           eof := true, bcasts := 1 },
    ea := { rd := none, wd := none, t := 0 },
    eb := { rd := none, wd := none, t := 0 } }

/-- Witness for C5 at a concrete scenario: starting from `c5pre`,
endpoint A's read drains the byte together with end-of-stream, after
which A's buffer is released, eof is set on both halves and the peer's
writes observe end-of-stream. -/
theorem conn_read_eof_closes_witness :
    ∃ post : Chan,
      c5pre.ReadOp Side.A 5 0 = some (post, [7], some NetErr.eofErr) ∧
      (post.rhalf Side.A).buf = none ∧ (post.rhalf Side.A).eof = true ∧
      (post.whalf Side.A).eof = true ∧
      (∀ (b : List Nat) (now' : Instant), ∃ ch'',
        post.WriteOp (Side.other Side.A) b now' =
          some (ch'', 0, some NetErr.eofErr)) := by
  have hcl : c5pre.CloseLinked :=
    ⟨fun h => Option.noConfusion h, fun _ => ⟨rfl, rfl⟩⟩
  have h := conn_read_eof_closes c5pre Side.A 5 0
    { a := { addr := "c", buf := none, bufCap := 4096, off := 0,
             eof := true, bcasts := 4 },
      b := { addr := "s", buf := none, bufCap := 4096, off := 0,
             eof := true, bcasts := 2 },
      ea := { rd := none, wd := none, t := 0 },
      eb := { rd := none, wd := none, t := 0 } } [7] hcl rfl
  exact ⟨_, rfl, h.1, h.2.1, h.2.2.1, h.2.2.2.2⟩

end GoImapMock
